import Mathlib

/-!
Shallow embedding of `mongoose-elasticsearch-xp` (src/lib/index.js) and proofs
about its per-document indexing protocol, its save/remove lifecycle hooks and
its stream synchronizer.  The bulk queue (`lib/bulker.js`) is not part of the
sources, so it is modelled from the spec where a claim needs it.
-/

namespace Mexp

/-- A backend error as observed by the callbacks: the code only ever inspects
`err.status` (see `_indexDoc`, line 441 of src/lib/index.js). -/
structure EsErr where
  status : Nat
deriving DecidableEq, Repr

/-- Result of an asynchronous backend call: the callback receives either an
error or a result.  Results are abstracted as `Nat` tokens. -/
abbrev EsResult := Except EsErr Nat

/-! ## `removeDoc` (src/lib/index.js lines 497-516)

`esOptions.client.delete(...)` invokes the callback with `err`; the handler is
`err => { if (err) { reject(err); } else { resolve(); } }`.  The behaviour of
the backend `delete` call is abstracted as its callback argument
(`none` = success, `some e` = error `e`). -/

/-- Embedding of `removeDoc`: the outcome of the promise as a function of the
error (if any) handed to the delete callback. -/
def removeDoc (deleteErr : Option EsErr) : Except EsErr Unit :=
  match deleteErr with
  | some err => .error err
  | none => .ok ()

/-! ## `_indexDoc` (src/lib/index.js lines 432-450)

`esOptions.client[update ? 'update' : 'index']({..., body: update ? {doc: body}
: body}, (err, result) => { if (update && err && err.status === 404)
{ _indexDoc(id, body, esOptions, resolve, reject); } else if (err)
{ reject(err); } else { resolve(result); } })`.

The recursive call omits the `update` argument, so on the retry `update` is
`undefined` (falsy): the retry is a full index write and its `404` guard is
dead.  The backend client is abstracted as a function from the method used
(`true` = update, `false` = index) to the callback's `(err, result)`. -/

/-- One request issued by `_indexDoc`: which client method was used and
whether the body was wrapped as `{doc: body}`.  Both are computed from the
truthiness of `update` at the call site. -/
structure EsCall where
  usesUpdateMethod : Bool
  bodyDocWrapped : Bool
deriving DecidableEq, Repr

/-- The request `_indexDoc` sends for a given truthiness of `update`:
`esOptions.client[update ? 'update' : 'index']` with
`body: update ? { doc: body } : body`. -/
def indexCall (update : Bool) : EsCall :=
  { usesUpdateMethod := update, bodyDocWrapped := update }

/-- Embedding of `_indexDoc`: given the backend's response to each method,
returns the list of requests issued (in order) and the settled outcome.
The recursive call passes no `update` argument, hence `false`. -/
def indexDocRetry (client : Bool → EsResult) : Bool → List EsCall × EsResult
  | true =>
    match client true with
    | .error err =>
      if err.status = 404 then
        let rest := indexDocRetry client false
        (indexCall true :: rest.1, rest.2)
      else ([indexCall true], .error err)
    | .ok result => ([indexCall true], .ok result)
  | false =>
    match client false with
    | .error err => ([indexCall false], .error err)
    | .ok result => ([indexCall false], .ok result)
termination_by update => if update then 1 else 0

/-! ## `unsetFields` (src/lib/index.js lines 458-489)

```
if (typeof fields === 'string') { fields = [fields]; }
if (esOptions.script) {
  body = { script: fields.map(field => `ctx._source.remove("${field}")`).join(';') };
} else {
  body = { doc: {} };
  fields.forEach(field => { body.doc[field] = null; });
}
esOptions.client.update({ index, type, id, body }, cb);
```
A single `update` request is sent, whatever the fields are. -/

/-- JS `Array.prototype.join(sep)`. -/
def joinSep (sep : String) : List String → String
  | [] => ""
  | [s] => s
  | s :: rest => s ++ sep ++ joinSep sep rest

/-- The per-field removal expression built by `unsetFields` in script mode. -/
def removeExpr (field : String) : String :=
  "ctx._source.remove(\"" ++ field ++ "\")"

/-- JS object assignment `obj[key] = null` on an object represented as an
insertion-ordered association list of fields mapped to `null` (modelled as
`Unit`): an existing key keeps its position, a new key is appended. -/
def jsSetNull (obj : List String) (key : String) : List String :=
  if key ∈ obj then obj else obj ++ [key]

/-- The request body `unsetFields` builds: either `{script: ...}` or
`{doc: {f1: null, f2: null, ...}}`. -/
inductive UnsetBody where
  | script (src : String)
  | doc (nullFields : List String)
deriving DecidableEq, Repr

/-- Embedding of the body construction of `unsetFields` for an array
argument, selected by `esOptions.script`. -/
def unsetBody (scriptMode : Bool) (fields : List String) : UnsetBody :=
  if scriptMode then
    .script (joinSep ";" (fields.map removeExpr))
  else
    .doc (fields.foldl jsSetNull [])

/-- Embedding of `unsetFields`: the list of backend requests issued (each the
body of a `client.update` call).  Exactly one update is sent. -/
def unsetFieldsCalls (scriptMode : Bool) (fields : List String) :
    List UnsetBody :=
  [unsetBody scriptMode fields]

/-- Substring test on character lists (used to state that the concatenated
script references a field's removal expression). -/
def subSeq (pat : List Char) : List Char → Bool
  | [] => pat.isEmpty
  | c :: rest => pat.isPrefixOf (c :: rest) || subSeq pat rest

theorem subSeq_of_isPrefixOf {pat xs : List Char}
    (h : pat.isPrefixOf xs = true) : subSeq pat xs = true := by
  cases xs with
  | nil =>
    cases pat with
    | nil => rfl
    | cons c cs => simp [List.isPrefixOf] at h
  | cons c rest => simp [subSeq, h]

theorem subSeq_append_right {pat ys : List Char} (xs : List Char)
    (h : subSeq pat ys = true) : subSeq pat (xs ++ ys) = true := by
  induction xs with
  | nil => simpa using h
  | cons x xs ih => simp [subSeq, ih]

theorem subSeq_prefix (pat ys : List Char) : subSeq pat (pat ++ ys) = true :=
  subSeq_of_isPrefixOf (List.isPrefixOf_iff_prefix.2 (List.prefix_append _ _))

theorem joinSep_cons_of_ne (sep : String) (s : String) {rest : List String}
    (h : rest ≠ []) : joinSep sep (s :: rest) = s ++ sep ++ joinSep sep rest := by
  cases rest with
  | nil => exact absurd rfl h
  | cons r rs => rfl

/-- Every field's removal expression occurs inside the joined script. -/
theorem subSeq_removeExpr_joinSep {f : String} {fields : List String}
    (hf : f ∈ fields) :
    subSeq (removeExpr f).data (joinSep ";" (fields.map removeExpr)).data
      = true := by
  induction fields with
  | nil => cases hf
  | cons g rest ih =>
    rcases List.mem_cons.1 hf with hEq | hMem
    · subst hEq
      cases rest with
      | nil =>
        simpa [joinSep] using subSeq_prefix (removeExpr f).data []
      | cons r rs =>
        rw [List.map_cons, joinSep_cons_of_ne ";" _ (by simp)]
        simpa [String.data_append, List.append_assoc] using
          subSeq_prefix (removeExpr f).data
            ((";" : String).data ++ (joinSep ";" ((r :: rs).map removeExpr)).data)
    · have hne : rest.map removeExpr ≠ [] := by
        cases rest with
        | nil => cases hMem
        | cons r rs => simp
      rw [List.map_cons, joinSep_cons_of_ne ";" _ hne]
      have hrec := ih hMem
      rw [String.data_append, String.data_append, List.append_assoc]
      exact subSeq_append_right _ (subSeq_append_right _ hrec)

theorem mem_jsSetNull {obj : List String} {key f : String} :
    f ∈ jsSetNull obj key ↔ f ∈ obj ∨ f = key := by
  unfold jsSetNull
  by_cases h : key ∈ obj
  · simp only [if_pos h]
    constructor
    · exact fun hm => Or.inl hm
    · rintro (hm | rfl)
      · exact hm
      · exact h
  · simp [if_neg h]

theorem mem_foldl_jsSetNull {fields : List String} {acc : List String}
    {f : String} :
    f ∈ fields.foldl jsSetNull acc ↔ f ∈ acc ∨ f ∈ fields := by
  induction fields generalizing acc with
  | nil => simp
  | cons g rest ih =>
    simp only [List.foldl_cons, ih, mem_jsSetNull, List.mem_cons]
    tauto

/-- Claim C3: with the update flag set, a 404 from the backend causes exactly
one retry as a full index write (index method, unwrapped body); the retry is
never itself retried — any error on the retry, a second 404 included, rejects
with that error; with the update flag unset a 404 is never retried; at most
two requests are ever issued. -/
theorem indexDoc_404_retry_once (client : Bool → EsResult) :
    (∀ e, client true = .error e → e.status = 404 →
      indexDocRetry client true
        = ([indexCall true, indexCall false], client false)) ∧
    (∀ e e2, client true = .error e → e.status = 404 →
      client false = .error e2 → (indexDocRetry client true).2 = .error e2) ∧
    (∀ e, client true = .error e → e.status ≠ 404 →
      indexDocRetry client true = ([indexCall true], .error e)) ∧
    indexDocRetry client false = ([indexCall false], client false) ∧
    (∀ u, (indexDocRetry client u).1.length ≤ 2) := by
  have hfalse : indexDocRetry client false = ([indexCall false], client false) := by
    unfold indexDocRetry
    cases client false <;> rfl
  refine ⟨?_, ?_, ?_, hfalse, ?_⟩
  · intro e he h404
    unfold indexDocRetry
    rw [he]
    simp [h404, hfalse]
  · intro e e2 he h404 he2
    unfold indexDocRetry
    rw [he]
    simp [h404, hfalse, he2]
  · intro e he hne
    unfold indexDocRetry
    rw [he]
    simp [hne]
  · intro u
    cases u with
    | false => rw [hfalse]; simp
    | true =>
      unfold indexDocRetry
      cases h : client true with
      | error e =>
        by_cases h404 : e.status = 404 <;> simp [h404, hfalse]
      | ok v => simp

/-- Witness for C3 at a backend that answers 404 to both the update and the
fallback index request: one retry happens and the second 404 rejects. -/
theorem indexDoc_404_retry_once_witness :
    indexDocRetry (fun _ => (.error ⟨404⟩ : EsResult)) true
        = ([indexCall true, indexCall false], .error ⟨404⟩) ∧
    (indexDocRetry (fun _ => (.error ⟨404⟩ : EsResult)) true).2
        = .error ⟨404⟩ := by
  have h := indexDoc_404_retry_once (fun _ => (.error ⟨404⟩ : EsResult))
  exact ⟨h.1 ⟨404⟩ rfl rfl, h.2.1 ⟨404⟩ ⟨404⟩ rfl rfl rfl⟩

/-- Claim C4 counterexample: when the backend reports not-found (status 404)
on the delete, `removeDoc` rejects with that error instead of resolving
successfully, contrary to the claim. -/
theorem removeDoc_404_rejects :
    removeDoc (some ⟨404⟩) = .error ⟨404⟩ ∧
      removeDoc (some ⟨404⟩) ≠ .ok () := by
  exact ⟨rfl, by simp [removeDoc]⟩

/-- Claim C4 (amended): `removeDoc` rejects with the backend error whenever
the delete callback reports any error — the not-found class included — and
resolves successfully exactly when the backend reports no error. -/
theorem removeDoc_error_propagation :
    (∀ e, removeDoc (some e) = .error e) ∧ removeDoc none = .ok () :=
  ⟨fun _ => rfl, rfl⟩

/-- Claim C8: for any non-empty field list, `unsetFields` sends exactly one
update request; in script mode its body is the single `;`-joined script whose
text contains the removal expression of every listed field; in doc mode its
body maps precisely the listed field names to null.  On `['a','b']` the
script is the literal concatenation and the doc body is `a, b ↦ null`. -/
theorem unsetFields_bodies (fields : List String) (_hne : fields ≠ []) :
    (∀ m, unsetFieldsCalls m fields = [unsetBody m fields]) ∧
    (unsetBody true fields
        = .script (joinSep ";" (fields.map removeExpr)) ∧
      ∀ f ∈ fields,
        subSeq (removeExpr f).data
          (joinSep ";" (fields.map removeExpr)).data = true) ∧
    (∃ nulled, unsetBody false fields = .doc nulled ∧
      ∀ f, f ∈ nulled ↔ f ∈ fields) ∧
    unsetBody true ["a", "b"]
        = .script "ctx._source.remove(\"a\");ctx._source.remove(\"b\")" ∧
    unsetBody false ["a", "b"] = .doc ["a", "b"] := by
  refine ⟨fun m => rfl, ⟨rfl, ?_⟩, ⟨fields.foldl jsSetNull [], rfl, ?_⟩, rfl, by decide⟩
  · intro f hf
    exact subSeq_removeExpr_joinSep hf
  · intro f
    rw [mem_foldl_jsSetNull]
    simp

/-- Witness for C8 at the concrete field list `['a','b']`. -/
theorem unsetFields_bodies_witness :
    (∀ m, unsetFieldsCalls m ["a", "b"] = [unsetBody m ["a", "b"]]) ∧
    (unsetBody true ["a", "b"]
        = .script (joinSep ";" ((["a", "b"] : List String).map removeExpr)) ∧
      ∀ f ∈ (["a", "b"] : List String),
        subSeq (removeExpr f).data
          (joinSep ";" ((["a", "b"] : List String).map removeExpr)).data
          = true) ∧
    (∃ nulled, unsetBody false ["a", "b"] = .doc nulled ∧
      ∀ f, f ∈ nulled ↔ f ∈ (["a", "b"] : List String)) ∧
    unsetBody true ["a", "b"]
        = .script "ctx._source.remove(\"a\");ctx._source.remove(\"b\")" ∧
    unsetBody false ["a", "b"] = .doc ["a", "b"] :=
  unsetFields_bodies ["a", "b"] (by decide)

/-! ## The Bulk Queue -/

/-- Modelled from the spec: the Bulk Queue (`lib/bulker.js`, absent from the
sources; only its use sites are in src/lib/index.js).  It accumulates
operation descriptors in order; `push` appends one descriptor and, when the
size threshold is reached, flushes the accumulated batch as one request and
reports that a flush was triggered. -/
structure Bulker (α : Type) where
  threshold : Nat
  buffer : List α
deriving DecidableEq, Repr

/-- Modelled from the spec: `push` appends an operation descriptor to the
current batch; reaching the threshold triggers an automatic flush (the batch
is sent and cleared).  Returns the new queue and the flushed batch, if any
(`isSome` = the Boolean `push` returns). -/
def Bulker.push {α : Type} (b : Bulker α) (op : α) : Bulker α × Option (List α) :=
  if b.threshold ≤ (b.buffer ++ [op]).length then
    ({ b with buffer := [] }, some (b.buffer ++ [op]))
  else ({ b with buffer := b.buffer ++ [op] }, none)

/-- Modelled from the spec: `filled()` reports whether the current batch is
non-empty. -/
def Bulker.filled {α : Type} (b : Bulker α) : Bool :=
  !b.buffer.isEmpty

/-- Modelled from the spec: an explicit `flush()` sends the accumulated batch
as one request and clears it; a no-op when the batch is empty. -/
def Bulker.flush {α : Type} (b : Bulker α) : Bulker α × Option (List α) :=
  if b.buffer.isEmpty then (b, none)
  else ({ b with buffer := [] }, some b.buffer)

/-- A sequence of pushes, collecting every automatically flushed batch in
order. -/
def Bulker.pushAll {α : Type} : Bulker α → List α → Bulker α × List (List α)
  | b, [] => (b, [])
  | b, op :: rest =>
    let step := b.push op
    let next := step.1.pushAll rest
    (next.1, step.2.toList ++ next.2)

theorem Bulker.push_flush {α : Type} {b : Bulker α} {op : α}
    (h : b.threshold ≤ (b.buffer ++ [op]).length) :
    b.push op = ({ b with buffer := [] }, some (b.buffer ++ [op])) := by
  unfold Bulker.push
  rw [if_pos h]

theorem Bulker.push_no_flush {α : Type} {b : Bulker α} {op : α}
    (h : ¬ b.threshold ≤ (b.buffer ++ [op]).length) :
    b.push op = ({ b with buffer := b.buffer ++ [op] }, none) := by
  unfold Bulker.push
  rw [if_neg h]

theorem Bulker.push_threshold {α : Type} (b : Bulker α) (op : α) :
    (b.push op).1.threshold = b.threshold := by
  by_cases h : b.threshold ≤ (b.buffer ++ [op]).length
  · rw [Bulker.push_flush h]
  · rw [Bulker.push_no_flush h]

theorem Bulker.push_buffer_lt {α : Type} {b : Bulker α} (op : α)
    (hT : 0 < b.threshold) (_h : b.buffer.length < b.threshold) :
    (b.push op).1.buffer.length < b.threshold := by
  by_cases hc : b.threshold ≤ (b.buffer ++ [op]).length
  · rw [Bulker.push_flush hc]
    simpa using hT
  · rw [Bulker.push_no_flush hc]
    simp only [List.length_append, List.length_cons, List.length_nil] at hc ⊢
    omega

theorem Bulker.pushAll_threshold {α : Type} (b : Bulker α) (ops : List α) :
    (b.pushAll ops).1.threshold = b.threshold := by
  induction ops generalizing b with
  | nil => rfl
  | cons op rest ih =>
    simp only [Bulker.pushAll]
    rw [ih, Bulker.push_threshold]

theorem Bulker.pushAll_buffer_lt {α : Type} {b : Bulker α} (ops : List α)
    (hT : 0 < b.threshold) (h : b.buffer.length < b.threshold) :
    (b.pushAll ops).1.buffer.length < b.threshold := by
  induction ops generalizing b with
  | nil => simpa [Bulker.pushAll] using h
  | cons op rest ih =>
    simp only [Bulker.pushAll]
    have hpt := Bulker.push_threshold b op
    have := ih (b := (b.push op).1)
      (by rw [hpt]; exact hT)
      (by rw [hpt]; exact Bulker.push_buffer_lt op hT h)
    rwa [hpt] at this

theorem Bulker.pushAll_below {α : Type} (T : Nat) (s ops : List α)
    (h : s.length + ops.length < T) :
    Bulker.pushAll ⟨T, s⟩ ops = (⟨T, s ++ ops⟩, []) := by
  induction ops generalizing s with
  | nil => simp [Bulker.pushAll]
  | cons op rest ih =>
    simp only [List.length_cons] at h
    have hno : ¬ (T : Nat) ≤ ((s ++ [op]).length : Nat) := by
      simp only [List.length_append, List.length_cons, List.length_nil]
      omega
    have harg : (s ++ [op]).length + rest.length < T := by
      simp only [List.length_append, List.length_cons, List.length_nil]
      omega
    simp only [Bulker.pushAll]
    rw [Bulker.push_no_flush (b := ⟨T, s⟩) hno]
    rw [ih (s ++ [op]) harg]
    simp

theorem Bulker.pushAll_crossing {α : Type} (T : Nat) (s ops : List α)
    (hs : s.length < T) (hlo : T ≤ s.length + ops.length)
    (hhi : s.length + ops.length < T + T) :
    Bulker.pushAll ⟨T, s⟩ ops
      = (⟨T, (s ++ ops).drop T⟩, [(s ++ ops).take T]) := by
  induction ops generalizing s with
  | nil => simp only [List.length_nil, Nat.add_zero] at hlo; omega
  | cons op rest ih =>
    simp only [List.length_cons] at hlo hhi
    by_cases hfl : (T : Nat) ≤ ((s ++ [op]).length : Nat)
    · have hlen : s.length + 1 = T := by
        simp only [List.length_append, List.length_cons, List.length_nil] at hfl
        omega
      simp only [Bulker.pushAll]
      rw [Bulker.push_flush (b := ⟨T, s⟩) hfl]
      have hrest : ([] : List α).length + rest.length < T := by
        simp only [List.length_nil, Nat.zero_add]
        omega
      rw [Bulker.pushAll_below T [] rest hrest]
      have hsplit : s ++ op :: rest = (s ++ [op]) ++ rest := by simp
      have hlen2 : (s ++ [op]).length = T := by
        simp only [List.length_append, List.length_cons, List.length_nil]
        omega
      have htake : (s ++ op :: rest).take T = s ++ [op] := by
        rw [hsplit, ← hlen2, List.take_left]
      have hdrop : (s ++ op :: rest).drop T = rest := by
        rw [hsplit, ← hlen2, List.drop_left]
      simp [htake, hdrop]
    · have hs2 : (s ++ [op]).length < T := by
        simp only [List.length_append, List.length_cons, List.length_nil] at hfl ⊢
        omega
      have hlo2 : T ≤ (s ++ [op]).length + rest.length := by
        simp only [List.length_append, List.length_cons, List.length_nil]
        omega
      have hhi2 : (s ++ [op]).length + rest.length < T + T := by
        simp only [List.length_append, List.length_cons, List.length_nil]
        omega
      simp only [Bulker.pushAll]
      rw [Bulker.push_no_flush (b := ⟨T, s⟩) hfl]
      rw [ih (s ++ [op]) hs2 hlo2 hhi2]
      simp

/-- Claim C9: starting from an empty queue with positive threshold `T`, after
any sequence of pushes the unflushed batch never exceeds the threshold; and
pushing `N` operations with `T ≤ N < 2T` triggers exactly one automatic
flush, containing exactly the first `T` operations in push order, while the
remaining operations form the new batch. -/
theorem bulker_threshold_crossing (T : Nat) (ops : List Nat) (hT : 0 < T)
    (hlo : T ≤ ops.length) (hhi : ops.length < T + T) :
    (∀ seq : List Nat,
      (Bulker.pushAll ⟨T, []⟩ seq).1.buffer.length ≤ T) ∧
    Bulker.pushAll ⟨T, []⟩ ops = (⟨T, ops.drop T⟩, [ops.take T]) := by
  constructor
  · intro seq
    exact le_of_lt (Bulker.pushAll_buffer_lt (b := ⟨T, []⟩) seq hT (by simpa))
  · have h := Bulker.pushAll_crossing T [] ops (by simpa) (by simpa) (by simpa)
    simpa using h

/-- Witness for C9: threshold 2, pushing three operations flushes exactly the
first two and leaves the third buffered. -/
theorem bulker_threshold_crossing_witness :
    (∀ seq : List Nat,
      (Bulker.pushAll ⟨2, []⟩ seq).1.buffer.length ≤ 2) ∧
    Bulker.pushAll ⟨2, []⟩ [10, 11, 12] = (⟨2, [12]⟩, [[10, 11]]) := by
  have h := bulker_threshold_crossing 2 [10, 11, 12] (by decide) (by decide)
    (by decide)
  exact ⟨h.1, by rw [h.2]; rfl⟩

/-! ## Save lifecycle hooks (src/lib/index.js lines 523-571)

`preSave` stores `this._mexp = { wasNew: this.isNew }` and, when the document
is not new, `this._mexp.unset = utils.getUndefineds(this, mapping)`.
`postSave` reads `data = doc._mexp || {}` — for `findOneAndUpdate` the
pre-save hook never ran, so `doc._mexp` is absent and both `data.wasNew` and
`data.unset` are `undefined` (falsy).  The `utils.getUndefineds` list is kept
abstract (any `List String`), since only its flow through the hooks matters
here. -/

/-- The pending mutation context `doc._mexp`.  `unset = none` models the JS
`undefined` (the field is only assigned when the document was not new). -/
structure MexpData where
  wasNew : Bool
  unset : Option (List String)
deriving DecidableEq, Repr

/-- Embedding of `preSave` (lines 523-531): captures `isNew` and, when not
new, the list of fields that became undefined relative to the mapping
(computed by `utils.getUndefineds`, passed in abstractly). -/
def preSave (isNew : Bool) (undefineds : List String) : MexpData :=
  { wasNew := isNew, unset := if isNew then none else some undefineds }

/-- A notification emitted by the post-save hook, with its payload. -/
inductive HookEvt where
  | indexed (outcome : Except EsErr Nat)
  | filteredEvt
  | removed (err : Option EsErr)
deriving Repr

/-- One observable action of the post-save hook, in order: backend calls
(`esIndex`, `esUnset`, `esRemove`) and emissions on the document instance
(`doc.emit`) or on its model (`doc.constructor.emit`). -/
inductive HookAction where
  | indexCall (update : Option (Option (List String)))
  | unsetCall (fields : List String)
  | removeCall
  | emitOnDoc (e : HookEvt)
  | emitOnModel (e : HookEvt)
deriving Repr

/-- Embedding of `postSave` (lines 538-569) as its trace of actions.
`mexp` is `doc._mexp` (absent for `findOneAndUpdate`); `filter` is
`esOptions.filter` applied to the doc, if configured; `scriptMode` is
`esOptions.script`; `indexResult`, `unsetResult` and `removeErr` are the
backend outcomes of the `esIndex`, `esUnset` and `esRemove` calls.
The `esIndex` argument is `data.wasNew ? false : { unset: data.unset }`:
`none` models the literal `false` (full index), `some u` models the object
`{ unset: u }` (partial-update path). -/
def postSave (mexp : Option MexpData) (filter : Option Bool)
    (scriptMode : Bool) (indexResult unsetResult : Except EsErr Nat)
    (removeErr : Option EsErr) : List HookAction :=
  let dataWasNew : Bool := match mexp with
    | some m => m.wasNew
    | none => false
  let dataUnset : Option (List String) := match mexp with
    | some m => m.unset
    | none => none
  if filter.getD true then
    let first := HookAction.indexCall
      (if dataWasNew then none else some dataUnset)
    match indexResult with
    | .error e =>
      [first, .emitOnDoc (.indexed (.error e)),
        .emitOnModel (.indexed (.error e))]
    | .ok r =>
      match dataUnset with
      | some u =>
        if scriptMode ∧ u.length ≠ 0 then
          [first, .unsetCall u, .emitOnDoc (.indexed unsetResult),
            .emitOnModel (.indexed unsetResult)]
        else
          [first, .emitOnDoc (.indexed (.ok r)),
            .emitOnModel (.indexed (.ok r))]
      | none =>
        [first, .emitOnDoc (.indexed (.ok r)),
          .emitOnModel (.indexed (.ok r))]
  else
    [HookAction.emitOnDoc .filteredEvt, .emitOnModel .filteredEvt] ++
      (if dataWasNew then []
        else [.removeCall, .emitOnDoc (.removed removeErr),
          .emitOnModel (.removed removeErr)])

/-- Claim C7: when the filter passes (or none is configured), a record that
pre-save captured as new is fully indexed; a non-new record is partially
updated carrying the unset list computed in pre-save; under script mode with
a non-empty unset list and a successful index, an explicit unset call
follows; and the indexed notification carrying the error-or-result is
emitted on both the instance and its model. -/
theorem postSave_save_flow (undefineds : List String) (scriptMode : Bool)
    (filter : Option Bool) (ir ur : Except EsErr Nat) (re : Option EsErr)
    (hpass : filter.getD true = true) :
    postSave (some (preSave true undefineds)) filter scriptMode ir ur re
        = [.indexCall none, .emitOnDoc (.indexed ir),
            .emitOnModel (.indexed ir)] ∧
    (∀ e, ir = .error e →
      postSave (some (preSave false undefineds)) filter scriptMode ir ur re
        = [.indexCall (some (some undefineds)), .emitOnDoc (.indexed ir),
            .emitOnModel (.indexed ir)]) ∧
    (∀ r, ir = .ok r → scriptMode = true → undefineds ≠ [] →
      postSave (some (preSave false undefineds)) filter scriptMode ir ur re
        = [.indexCall (some (some undefineds)), .unsetCall undefineds,
            .emitOnDoc (.indexed ur), .emitOnModel (.indexed ur)]) ∧
    (∀ r, ir = .ok r → scriptMode = false ∨ undefineds = [] →
      postSave (some (preSave false undefineds)) filter scriptMode ir ur re
        = [.indexCall (some (some undefineds)), .emitOnDoc (.indexed ir),
            .emitOnModel (.indexed ir)]) := by
  refine ⟨?_, ?_, ?_, ?_⟩
  · unfold postSave preSave
    rw [hpass]
    cases ir with
    | error e => rfl
    | ok r => rfl
  · intro e he
    subst he
    unfold postSave preSave
    rw [hpass]
    rfl
  · intro r hr hs hne
    subst hr hs
    unfold postSave preSave
    rw [hpass]
    simp [hne]
  · intro r hr hcase
    subst hr
    unfold postSave preSave
    rw [hpass]
    rcases hcase with hs | hne
    · subst hs
      simp
    · subst hne
      simp

/-- Witness for C7: no filter, script mode, one stale field, successful
index and unset calls. -/
theorem postSave_save_flow_witness :
    postSave (some (preSave true ["x"])) none true (.ok 1) (.ok 2) none
        = [.indexCall none, .emitOnDoc (.indexed (.ok 1)),
            .emitOnModel (.indexed (.ok 1))] ∧
    postSave (some (preSave false ["x"])) none true (.ok 1) (.ok 2) none
        = [.indexCall (some (some ["x"])), .unsetCall ["x"],
            .emitOnDoc (.indexed (.ok 2)), .emitOnModel (.indexed (.ok 2))] := by
  have h := postSave_save_flow ["x"] true none (.ok 1) (.ok 2) none rfl
  exact ⟨h.1, h.2.2.1 1 rfl rfl (by decide)⟩

/-- Claim C10: when `doc._mexp` is absent (as after every
`findOneAndUpdate`, whose pre-save hook never ran), the document is treated
as not-new: if the filter passes the index call takes the partial-update
path with an undefined unset list (never a full index), and if the filter
rejects the document a remove is always issued. -/
theorem postSave_no_mexp (filter : Option Bool) (scriptMode : Bool)
    (ir ur : Except EsErr Nat) (re : Option EsErr) :
    (filter.getD true = true →
      postSave none filter scriptMode ir ur re
        = [.indexCall (some none), .emitOnDoc (.indexed ir),
            .emitOnModel (.indexed ir)] ∧
      HookAction.indexCall none ∉ postSave none filter scriptMode ir ur re) ∧
    (filter = some false →
      postSave none filter scriptMode ir ur re
        = [.emitOnDoc .filteredEvt, .emitOnModel .filteredEvt, .removeCall,
            .emitOnDoc (.removed re), .emitOnModel (.removed re)]) := by
  constructor
  · intro hpass
    have htrace : postSave none filter scriptMode ir ur re
        = [.indexCall (some none), .emitOnDoc (.indexed ir),
            .emitOnModel (.indexed ir)] := by
      unfold postSave
      rw [hpass]
      cases ir with
      | error e => rfl
      | ok r => rfl
    refine ⟨htrace, ?_⟩
    rw [htrace]
    simp
  · intro hfail
    subst hfail
    unfold postSave
    rfl

/-- Witness for C10 with a rejecting filter and a passing filter. -/
theorem postSave_no_mexp_witness :
    postSave none (some true) false (.ok 1) (.ok 2) none
        = [.indexCall (some none), .emitOnDoc (.indexed (.ok 1)),
            .emitOnModel (.indexed (.ok 1))] ∧
    postSave none (some false) false (.ok 1) (.ok 2) none
        = [.emitOnDoc .filteredEvt, .emitOnModel .filteredEvt, .removeCall,
            .emitOnDoc (.removed none), .emitOnModel (.removed none)] :=
  ⟨((postSave_no_mexp (some true) false (.ok 1) (.ok 2) none).1 rfl).1,
    (postSave_no_mexp (some false) false (.ok 1) (.ok 2) none).2 rfl⟩

/-! ## `synchronize` (src/lib/index.js lines 304-393)

The run is modelled as a state machine driven by the three asynchronous
events the code reacts to: the cursor delivering a document
(`stream.on('data')`), the cursor closing (`stream.on('close')`) and a bulk
request settling (the bulker firing `sent` or `error`).  Documents are
abstracted as `Nat` identifiers; the pushed operation descriptor is the
document itself.  The refresh issued by `finalize` is collapsed into the
finalize step, its backend outcome given by the configuration. -/

/-- Configuration of one synchronize run: the bulk batch threshold, the
optional `esOptions.filter` predicate, and the backend's answer to the final
`indices.refresh` call. -/
structure SyncCfg where
  threshold : Nat
  filter : Option (Nat → Bool)
  refreshResult : Except EsErr Nat

/-- Truthiness of `!esOptions.filter || esOptions.filter(doc)`. -/
def passes (cfg : SyncCfg) (d : Nat) : Bool :=
  match cfg.filter with
  | none => true
  | some f => f d

/-- A notification emitted on the model during the run. -/
inductive SyncEvt where
  | bulkData (d : Nat)
  | bulkFiltered (d : Nat)
  | bulkSent
  | bulkError
deriving DecidableEq, Repr

/-- State of one synchronize run.  `batches` records every batch handed to
the backend (automatic flushes and the final flush); `inFlight` counts bulk
requests whose callback has not yet fired; `listeners` is true until
`finalize` removes the `sent`/`error` handlers; `finalizeCount` counts
`finalize` invocations; `outcome` is the settled result of the run. -/
structure SyncState where
  streamClosed : Bool
  paused : Bool
  listeners : Bool
  bulker : Bulker Nat
  inFlight : Nat
  batches : List (List Nat)
  finalizeCount : Nat
  outcome : Option (Except EsErr Nat)
  emits : List SyncEvt

/-- The initial state of a run (lines 319-359): stream flowing, handlers
attached, empty bulk queue. -/
def syncInit (cfg : SyncCfg) : SyncState :=
  { streamClosed := false, paused := false, listeners := true,
    bulker := ⟨cfg.threshold, []⟩, inFlight := 0, batches := [],
    finalizeCount := 0, outcome := none, emits := [] }

/-- Embedding of `finalize` (lines 331-338): removes the bulker listeners
and issues the index refresh, whose outcome settles the run. -/
def finalize (cfg : SyncCfg) (s : SyncState) : SyncState :=
  { s with listeners := false,
           finalizeCount := s.finalizeCount + 1,
           outcome := some cfg.refreshResult }

/-- Embedding of `onError` (lines 340-347): emit the bulk error, then
finalize if the stream already closed, else resume it. -/
def onErrorH (cfg : SyncCfg) (s : SyncState) : SyncState :=
  let s := { s with emits := s.emits ++ [SyncEvt.bulkError] }
  if s.streamClosed then finalize cfg s else { s with paused := false }

/-- Embedding of `onSent` (lines 349-356): emit the sent notification, then
finalize if the stream already closed, else resume it. -/
def onSentH (cfg : SyncCfg) (s : SyncState) : SyncState :=
  let s := { s with emits := s.emits ++ [SyncEvt.bulkSent] }
  if s.streamClosed then finalize cfg s else { s with paused := false }

/-- Embedding of the `stream.on('data')` handler (lines 361-382): pause,
then either push the serialized document (a triggered flush goes on the
wire) and emit the data notification, or emit the filtered notification;
resume unless a flush was triggered. -/
def onData (cfg : SyncCfg) (s : SyncState) (d : Nat) : SyncState :=
  let s := { s with paused := true }
  if passes cfg d then
    let pr := s.bulker.push d
    let s := { s with bulker := pr.1,
                      batches := s.batches ++ pr.2.toList,
                      inFlight := s.inFlight + (if pr.2.isSome then 1 else 0),
                      emits := s.emits ++ [SyncEvt.bulkData d] }
    if pr.2.isSome then s else { s with paused := false }
  else
    { s with emits := s.emits ++ [SyncEvt.bulkFiltered d], paused := false }

/-- Embedding of the `stream.on('close')` handler (lines 384-391): mark the
stream closed, then flush the queue if it is filled, else finalize. -/
def onClose (cfg : SyncCfg) (s : SyncState) : SyncState :=
  let s := { s with streamClosed := true }
  if s.bulker.filled then
    let fr := s.bulker.flush
    { s with bulker := fr.1,
             batches := s.batches ++ fr.2.toList,
             inFlight := s.inFlight + (if fr.2.isSome then 1 else 0) }
  else finalize cfg s

/-- A bulk request settling: the network callback fires (decrementing the
in-flight count); the bulker invokes `onSent`/`onError` only while the
listeners are still attached (finalize removed them, lines 332-333). -/
def onSettle (cfg : SyncCfg) (s : SyncState) (ok : Bool) : SyncState :=
  let s := { s with inFlight := s.inFlight - 1 }
  if s.listeners then
    if ok then onSentH cfg s else onErrorH cfg s
  else s

/-- An asynchronous event a run reacts to. -/
inductive Ev where
  | data (d : Nat)
  | close
  | settle (ok : Bool)
deriving Repr

/-- The step function of a run. -/
def syncStep (cfg : SyncCfg) (s : SyncState) : Ev → SyncState
  | .data d => onData cfg s d
  | .close => onClose cfg s
  | .settle ok => onSettle cfg s ok

/-- Which events the environment can deliver in a state: a paused stream
emits neither documents nor close, a closed stream emits nothing, and a
bulk callback can only fire for an outstanding request. -/
def validEv (s : SyncState) : Ev → Bool
  | .data _ => !s.paused && !s.streamClosed
  | .close => !s.streamClosed
  | .settle _ => s.inFlight != 0

/-- Run a list of events. -/
def runFrom (cfg : SyncCfg) (s : SyncState) : List Ev → SyncState
  | [] => s
  | e :: es => runFrom cfg (syncStep cfg s e) es

/-- Validity of a whole event sequence from a state. -/
def validFrom (cfg : SyncCfg) (s : SyncState) : List Ev → Bool
  | [] => true
  | e :: es => validEv s e && validFrom cfg (syncStep cfg s e) es

theorem onData_filtered (cfg : SyncCfg) (s : SyncState) (d : Nat)
    (hp : passes cfg d = false) :
    onData cfg s d
      = { s with emits := s.emits ++ [SyncEvt.bulkFiltered d],
                 paused := false } := by
  unfold onData
  rw [hp]
  rfl

theorem onData_no_flush (cfg : SyncCfg) (s : SyncState) (d : Nat)
    (hp : passes cfg d = true)
    (hc : ¬ s.bulker.threshold ≤ (s.bulker.buffer ++ [d]).length) :
    onData cfg s d
      = { s with paused := false,
                 bulker := { s.bulker with buffer := s.bulker.buffer ++ [d] },
                 emits := s.emits ++ [SyncEvt.bulkData d] } := by
  simp only [onData, hp, if_true, Bulker.push_no_flush hc, Option.isSome_none,
    Bool.false_eq_true, if_false, Option.toList_none, List.append_nil,
    Nat.add_zero]

theorem onData_flush (cfg : SyncCfg) (s : SyncState) (d : Nat)
    (hp : passes cfg d = true)
    (hc : s.bulker.threshold ≤ (s.bulker.buffer ++ [d]).length) :
    onData cfg s d
      = { s with paused := true,
                 bulker := { s.bulker with buffer := [] },
                 batches := s.batches ++ [s.bulker.buffer ++ [d]],
                 inFlight := s.inFlight + 1,
                 emits := s.emits ++ [SyncEvt.bulkData d] } := by
  simp only [onData, hp, if_true, Bulker.push_flush hc, Option.isSome_some,
    if_true, Option.toList_some]

theorem onClose_filled (cfg : SyncCfg) (s : SyncState)
    (hf : s.bulker.buffer ≠ []) :
    onClose cfg s
      = { s with streamClosed := true,
                 bulker := { s.bulker with buffer := [] },
                 batches := s.batches ++ [s.bulker.buffer],
                 inFlight := s.inFlight + 1 } := by
  have hne : s.bulker.buffer.isEmpty = false := by
    cases h : s.bulker.buffer with
    | nil => exact absurd h hf
    | cons a l => rfl
  simp [onClose, Bulker.filled, Bulker.flush, hne]

theorem onClose_empty (cfg : SyncCfg) (s : SyncState)
    (hf : s.bulker.buffer = []) :
    onClose cfg s = finalize cfg { s with streamClosed := true } := by
  simp [onClose, Bulker.filled, hf, finalize]

theorem onSettle_detached (cfg : SyncCfg) (s : SyncState) (ok : Bool)
    (hl : s.listeners = false) :
    onSettle cfg s ok = { s with inFlight := s.inFlight - 1 } := by
  unfold onSettle
  rw [hl]
  rfl

theorem onSettle_open (cfg : SyncCfg) (s : SyncState) (ok : Bool)
    (hl : s.listeners = true) (hcl : s.streamClosed = false) :
    onSettle cfg s ok
      = { s with inFlight := s.inFlight - 1,
                 emits := s.emits
                   ++ [if ok then SyncEvt.bulkSent else SyncEvt.bulkError],
                 paused := false } := by
  unfold onSettle onSentH onErrorH
  rw [hl]
  cases ok <;> simp [hcl]

theorem onSettle_closed (cfg : SyncCfg) (s : SyncState) (ok : Bool)
    (hl : s.listeners = true) (hcl : s.streamClosed = true) :
    onSettle cfg s ok
      = finalize cfg
          { s with inFlight := s.inFlight - 1,
                   emits := s.emits
                     ++ [if ok then SyncEvt.bulkSent else SyncEvt.bulkError] } := by
  unfold onSettle onSentH onErrorH
  rw [hl]
  cases ok <;> simp [hcl]

/-- The inductive invariant of a synchronize run. -/
structure SyncInv (cfg : SyncCfg) (s : SyncState) : Prop where
  threshold_eq : s.bulker.threshold = cfg.threshold
  buf_lt : s.bulker.buffer.length < cfg.threshold
  flight_le : s.inFlight ≤ 1
  flight_pause : s.streamClosed = false → s.inFlight ≠ 0 → s.paused = true
  flight_buf : s.inFlight ≠ 0 → s.bulker.buffer = []
  open_zero : s.streamClosed = false → s.finalizeCount = 0
  listen_iff : s.listeners = true ↔ s.finalizeCount = 0
  fin_le : s.finalizeCount ≤ 1
  closed_fin : s.streamClosed = true → s.finalizeCount = 1 ∨ s.inFlight ≠ 0
  fin_buf : s.finalizeCount = 1 → s.bulker.buffer = []
  outcome_fin : s.outcome
    = if s.finalizeCount = 0 then none else some cfg.refreshResult
  batches_pass : ∀ b ∈ s.batches, ∀ d ∈ b, passes cfg d = true
  buffer_pass : ∀ d ∈ s.bulker.buffer, passes cfg d = true

theorem syncInit_inv (cfg : SyncCfg) (hT : 0 < cfg.threshold) :
    SyncInv cfg (syncInit cfg) := by
  refine ⟨rfl, hT, ?_, ?_, ?_, ?_, ?_, ?_, ?_, ?_, rfl, ?_, ?_⟩ <;>
    simp [syncInit]

theorem syncStep_inv (cfg : SyncCfg) (hT : 0 < cfg.threshold)
    {s : SyncState} (inv : SyncInv cfg s) {e : Ev}
    (hv : validEv s e = true) : SyncInv cfg (syncStep cfg s e) := by
  cases e with
  | data d =>
    have hnp : s.paused = false := by
      simp only [validEv, Bool.and_eq_true, Bool.not_eq_true'] at hv
      exact hv.1
    have hnc : s.streamClosed = false := by
      simp only [validEv, Bool.and_eq_true, Bool.not_eq_true'] at hv
      exact hv.2
    have hif0 : s.inFlight = 0 := by
      by_contra h
      exact absurd (inv.flight_pause hnc h) (by rw [hnp]; simp)
    have hzero : s.finalizeCount = 0 := inv.open_zero hnc
    show SyncInv cfg (onData cfg s d)
    by_cases hp : passes cfg d = true
    · by_cases hc : s.bulker.threshold ≤ (s.bulker.buffer ++ [d]).length
      · rw [onData_flush cfg s d hp hc]
        refine ⟨inv.threshold_eq, hT, by simp [hif0], ?_, ?_, ?_, ?_, ?_,
          ?_, ?_, ?_, ?_, ?_⟩
        · intro _ _
          rfl
        · intro _
          rfl
        · intro _
          exact hzero
        · exact inv.listen_iff
        · exact inv.fin_le
        · intro hcl
          exact absurd hcl (by rw [hnc]; simp)
        · intro h1
          exact absurd h1 (by rw [hzero]; simp)
        · exact inv.outcome_fin
        · intro b hb dd hdd
          rcases List.mem_append.1 hb with hb | hb
          · exact inv.batches_pass b hb dd hdd
          · rcases List.mem_singleton.1 hb with rfl
            rcases List.mem_append.1 hdd with hdd | hdd
            · exact inv.buffer_pass dd hdd
            · rcases List.mem_singleton.1 hdd with rfl
              exact hp
        · intro dd hdd
          cases hdd
      · rw [onData_no_flush cfg s d hp hc]
        refine ⟨inv.threshold_eq, ?_, by simp [hif0], ?_, ?_, ?_, ?_, ?_,
          ?_, ?_, ?_, ?_, ?_⟩
        · rw [← inv.threshold_eq]
          simp only [List.length_append, List.length_cons, List.length_nil] at hc ⊢
          omega
        · intro _ h
          exact absurd h (by rw [hif0]; simp)
        · intro h
          exact absurd h (by rw [hif0]; simp)
        · intro _
          exact hzero
        · exact inv.listen_iff
        · exact inv.fin_le
        · intro hcl
          exact absurd hcl (by rw [hnc]; simp)
        · intro h1
          exact absurd h1 (by rw [hzero]; simp)
        · exact inv.outcome_fin
        · exact inv.batches_pass
        · intro dd hdd
          rcases List.mem_append.1 hdd with hdd | hdd
          · exact inv.buffer_pass dd hdd
          · rcases List.mem_singleton.1 hdd with rfl
            exact hp
    · rw [onData_filtered cfg s d (by simpa using hp)]
      refine ⟨inv.threshold_eq, inv.buf_lt, inv.flight_le, ?_, inv.flight_buf,
        ?_, inv.listen_iff, inv.fin_le, ?_, inv.fin_buf, inv.outcome_fin,
        inv.batches_pass, inv.buffer_pass⟩
      · intro _ h
        exact absurd h (by rw [hif0]; simp)
      · intro _
        exact hzero
      · intro hcl
        exact absurd hcl (by rw [hnc]; simp)
  | close =>
    have hnc : s.streamClosed = false := by
      simp only [validEv, Bool.not_eq_true'] at hv
      exact hv
    have hzero : s.finalizeCount = 0 := inv.open_zero hnc
    have hlis : s.listeners = true := inv.listen_iff.2 hzero
    show SyncInv cfg (onClose cfg s)
    by_cases hf : s.bulker.buffer = []
    · rw [onClose_empty cfg s hf]
      refine ⟨inv.threshold_eq, inv.buf_lt, inv.flight_le, ?_, ?_, ?_, ?_,
        ?_, ?_, ?_, ?_, inv.batches_pass, inv.buffer_pass⟩
      · intro h
        cases h
      · intro h
        exact inv.flight_buf h
      · intro h
        cases h
      · simp [finalize, hzero]
      · simp [finalize, hzero]
      · intro _
        left
        simp [finalize, hzero]
      · intro _
        exact hf
      · simp [finalize, hzero]
    · rw [onClose_filled cfg s hf]
      have hif0 : s.inFlight = 0 := by
        by_contra h
        exact hf (inv.flight_buf h)
      refine ⟨inv.threshold_eq, hT, by simp [hif0], ?_, ?_, ?_, hlis.symm ▸
        inv.listen_iff, inv.fin_le, ?_, ?_, inv.outcome_fin, ?_, ?_⟩
      · intro h
        cases h
      · intro _
        rfl
      · intro h
        cases h
      · intro _
        right
        simp
      · intro h1
        exact absurd h1 (by rw [hzero]; simp)
      · intro b hb dd hdd
        rcases List.mem_append.1 hb with hb | hb
        · exact inv.batches_pass b hb dd hdd
        · rcases List.mem_singleton.1 hb with rfl
          exact inv.buffer_pass dd hdd
      · intro dd hdd
        cases hdd
  | settle ok =>
    have hifne : s.inFlight ≠ 0 := by
      simpa [validEv] using hv
    have hif1 : s.inFlight = 1 := by
      have := inv.flight_le
      omega
    have hbuf : s.bulker.buffer = [] := inv.flight_buf hifne
    show SyncInv cfg (onSettle cfg s ok)
    by_cases hl : s.listeners = true
    · have hzero : s.finalizeCount = 0 := inv.listen_iff.1 hl
      by_cases hcl : s.streamClosed = true
      · rw [onSettle_closed cfg s ok hl hcl]
        refine ⟨inv.threshold_eq, inv.buf_lt, ?_, ?_, ?_, ?_, ?_, ?_, ?_,
          ?_, ?_, inv.batches_pass, inv.buffer_pass⟩
        · simp [finalize, hif1]
        · intro h
          simp [finalize, hcl] at h
        · intro _
          exact hbuf
        · intro h
          simp [finalize, hcl] at h
        · simp [finalize, hzero]
        · simp [finalize, hzero]
        · intro _
          left
          simp [finalize, hzero]
        · intro _
          exact hbuf
        · simp [finalize, hzero]
      · have hcl' : s.streamClosed = false := by
          simpa using hcl
        rw [onSettle_open cfg s ok hl hcl']
        refine ⟨inv.threshold_eq, inv.buf_lt, by simp [hif1], ?_, ?_, ?_,
          inv.listen_iff, inv.fin_le, ?_, inv.fin_buf, inv.outcome_fin,
          inv.batches_pass, inv.buffer_pass⟩
        · intro _ h
          exact absurd h (by rw [hif1]; simp)
        · intro h
          exact absurd h (by rw [hif1]; simp)
        · intro _
          exact hzero
        · intro h
          exact absurd h (by rw [hcl']; simp)
    · have hl' : s.listeners = false := by
        simpa using hl
      rw [onSettle_detached cfg s ok hl']
      have hone : s.finalizeCount = 1 := by
        have h0 : ¬ s.finalizeCount = 0 := fun h => by
          rw [inv.listen_iff.2 h] at hl'
          cases hl'
        have := inv.fin_le
        omega
      have hclosed : s.streamClosed = true := by
        by_cases h : s.streamClosed = true
        · exact h
        · have : s.finalizeCount = 0 := inv.open_zero (by simpa using h)
          rw [this] at hone
          cases hone
      refine ⟨inv.threshold_eq, inv.buf_lt, by simp [hif1], ?_, ?_, ?_,
        inv.listen_iff, inv.fin_le, ?_, inv.fin_buf, inv.outcome_fin,
        inv.batches_pass, inv.buffer_pass⟩
      · intro h
        rw [hclosed] at h
        cases h
      · intro h
        exact absurd h (by rw [hif1]; simp)
      · intro h
        rw [hclosed] at h
        cases h
      · intro _
        left
        exact hone

theorem runFrom_inv (cfg : SyncCfg) (hT : 0 < cfg.threshold)
    {s : SyncState} (inv : SyncInv cfg s) {es : List Ev}
    (hvalid : validFrom cfg s es = true) :
    SyncInv cfg (runFrom cfg s es) := by
  induction es generalizing s with
  | nil => exact inv
  | cons e rest ih =>
    simp only [validFrom, Bool.and_eq_true] at hvalid
    exact ih (syncStep_inv cfg hT inv hvalid.1) hvalid.2

/-- A sample configuration: batch threshold 2, a filter keeping even ids, a
successful refresh. -/
def cfgEven : SyncCfg :=
  { threshold := 2, filter := some (fun d => d % 2 == 0),
    refreshResult := .ok 5 }

/-- A sample configuration: batch threshold 2, no filter, a failing
refresh. -/
def cfgErr : SyncCfg :=
  { threshold := 2, filter := none, refreshResult := .error ⟨500⟩ }

/-- Claim C1: along any valid run, at most one bulk request is in flight and
the stream stays paused while one is (so at most one record is in flight
awaiting enqueue); and at any reachable point where the cursor can deliver a
record, the stream is unpaused before it, ends up paused after processing
the record exactly when the enqueue triggered an automatic flush (it is
resumed at once when the record is filtered or enqueued without flush), and
the flush settling — via the queue's sent or error notification — resumes
it. -/
theorem sync_backpressure (cfg : SyncCfg) (hT : 0 < cfg.threshold)
    (es : List Ev) (hvalid : validFrom cfg (syncInit cfg) es = true)
    (t : SyncState) (ht : t = runFrom cfg (syncInit cfg) es) :
    t.inFlight ≤ 1 ∧
    (t.streamClosed = false → t.inFlight ≠ 0 → t.paused = true) ∧
    (∀ d, validEv t (.data d) = true →
      t.paused = false ∧
      ((syncStep cfg t (.data d)).paused = true ↔
        passes cfg d = true ∧ (t.bulker.push d).2.isSome = true) ∧
      (∀ ok, (syncStep cfg t (.data d)).paused = true →
        (syncStep cfg (syncStep cfg t (.data d)) (.settle ok)).paused
          = false)) := by
  subst ht
  have inv : SyncInv cfg (runFrom cfg (syncInit cfg) es) :=
    runFrom_inv cfg hT (syncInit_inv cfg hT) hvalid
  set s := runFrom cfg (syncInit cfg) es with hs
  refine ⟨inv.flight_le, inv.flight_pause, ?_⟩
  intro d hvd
  have hnp : s.paused = false := by
    simp only [validEv, Bool.and_eq_true, Bool.not_eq_true'] at hvd
    exact hvd.1
  have hnc : s.streamClosed = false := by
    simp only [validEv, Bool.and_eq_true, Bool.not_eq_true'] at hvd
    exact hvd.2
  have hlis : s.listeners = true := inv.listen_iff.2 (inv.open_zero hnc)
  refine ⟨hnp, ?_, ?_⟩
  · by_cases hp : passes cfg d = true
    · by_cases hc : s.bulker.threshold ≤ (s.bulker.buffer ++ [d]).length
      · show (onData cfg s d).paused = true ↔ _
        rw [onData_flush cfg s d hp hc, Bulker.push_flush hc]
        simp [hp]
      · show (onData cfg s d).paused = true ↔ _
        rw [onData_no_flush cfg s d hp hc, Bulker.push_no_flush hc]
        simp
    · show (onData cfg s d).paused = true ↔ _
      rw [onData_filtered cfg s d (by simpa using hp)]
      simp [hp]
  · intro ok hpaused
    by_cases hp : passes cfg d = true
    · by_cases hc : s.bulker.threshold ≤ (s.bulker.buffer ++ [d]).length
      · show (onSettle cfg (onData cfg s d) ok).paused = false
        rw [onData_flush cfg s d hp hc]
        rw [onSettle_open cfg _ ok (by simpa using hlis) (by simpa using hnc)]
      · exact absurd hpaused (by
          show ¬ (onData cfg s d).paused = true
          rw [onData_no_flush cfg s d hp hc]
          simp)
    · exact absurd hpaused (by
        show ¬ (onData cfg s d).paused = true
        rw [onData_filtered cfg s d (by simpa using hp)]
        simp)

/-- Witness for C1: after one enqueued record, delivering a second even
record fills the batch, triggers a flush and leaves the stream paused; the
flush settling resumes it. -/
theorem sync_backpressure_witness :
    (syncStep cfgEven (runFrom cfgEven (syncInit cfgEven) [.data 0])
        (.data 2)).paused = true ∧
    (syncStep cfgEven
        (syncStep cfgEven (runFrom cfgEven (syncInit cfgEven) [.data 0])
          (.data 2))
        (.settle true)).paused = false := by
  have h := sync_backpressure cfgEven (by decide) [.data 0] (by decide)
    (runFrom cfgEven (syncInit cfgEven) [.data 0]) rfl
  have h3 := h.2.2 2 (by decide)
  have hpause := h3.2.1.2 (by decide)
  exact ⟨hpause, h3.2.2 true hpause⟩

/-- Claim C2: along any valid run, finalization (the index refresh) happens
at most once, only in a state where the cursor has closed and the bulk queue
is empty; once the cursor has closed and every bulk request has settled it
has happened exactly once; and at cursor close a still-filled queue is
flushed first (no finalize yet, the batch goes out), while an empty queue
finalizes immediately. -/
theorem sync_refresh_once (cfg : SyncCfg) (hT : 0 < cfg.threshold)
    (es : List Ev) (hvalid : validFrom cfg (syncInit cfg) es = true)
    (t : SyncState) (ht : t = runFrom cfg (syncInit cfg) es) :
    t.finalizeCount ≤ 1 ∧
    (t.finalizeCount = 1 → t.streamClosed = true ∧ t.bulker.buffer = []) ∧
    (t.streamClosed = true → t.inFlight = 0 → t.finalizeCount = 1) ∧
    (t.streamClosed = false → t.bulker.buffer ≠ [] →
      (syncStep cfg t .close).finalizeCount = 0 ∧
      (syncStep cfg t .close).batches = t.batches ++ [t.bulker.buffer]) ∧
    (t.streamClosed = false → t.bulker.buffer = [] →
      (syncStep cfg t .close).finalizeCount = 1) := by
  subst ht
  have inv : SyncInv cfg (runFrom cfg (syncInit cfg) es) :=
    runFrom_inv cfg hT (syncInit_inv cfg hT) hvalid
  set s := runFrom cfg (syncInit cfg) es with hs
  refine ⟨inv.fin_le, ?_, ?_, ?_, ?_⟩
  · intro h1
    have hclosed : s.streamClosed = true := by
      by_cases h : s.streamClosed = true
      · exact h
      · have := inv.open_zero (by simpa using h)
        rw [this] at h1
        cases h1
    exact ⟨hclosed, inv.fin_buf h1⟩
  · intro hcl hif
    rcases inv.closed_fin hcl with h | h
    · exact h
    · exact absurd hif h
  · intro hnc hf
    have hzero := inv.open_zero hnc
    constructor
    · show (onClose cfg s).finalizeCount = 0
      rw [onClose_filled cfg s hf]
      exact hzero
    · show (onClose cfg s).batches = _
      rw [onClose_filled cfg s hf]
  · intro hnc hf
    have hzero := inv.open_zero hnc
    show (onClose cfg s).finalizeCount = 1
    rw [onClose_empty cfg s hf]
    simp [finalize, hzero]

/-- Witness for C2: a run with one automatic flush that settles before the
cursor closes finalizes exactly once, and a run left with a filled queue
flushes (without finalizing) at close. -/
theorem sync_refresh_once_witness :
    (runFrom cfgEven (syncInit cfgEven)
        [.data 0, .data 2, .settle true, .close]).finalizeCount = 1 ∧
    (syncStep cfgEven
        (runFrom cfgEven (syncInit cfgEven) [.data 0, .data 2, .settle true,
          .data 4])
        .close).finalizeCount = 0 := by
  have h1 := sync_refresh_once cfgEven (by decide)
    [.data 0, .data 2, .settle true, .close] (by decide)
    (runFrom cfgEven (syncInit cfgEven)
      [.data 0, .data 2, .settle true, .close]) rfl
  have h2 := sync_refresh_once cfgEven (by decide)
    [.data 0, .data 2, .settle true, .data 4] (by decide)
    (runFrom cfgEven (syncInit cfgEven)
      [.data 0, .data 2, .settle true, .data 4]) rfl
  exact ⟨h1.2.2.1 (by decide) (by decide),
    (h2.2.2.2.1 (by decide) (by decide)).1⟩

/-- Claim C6: at any reachable point with the cursor still open and a bulk
request outstanding, the queue's error notification does not abort the
session — the bulk error is emitted, the cursor resumed, no finalize and no
settling of the outcome happen; by contrast, once finalization has run the
session's outcome is exactly the refresh result, so a refresh error becomes
the rejected outcome. -/
theorem sync_bulk_error_nonfatal (cfg : SyncCfg) (hT : 0 < cfg.threshold)
    (es : List Ev) (hvalid : validFrom cfg (syncInit cfg) es = true)
    (t : SyncState) (ht : t = runFrom cfg (syncInit cfg) es) :
    (t.streamClosed = false → t.inFlight ≠ 0 →
      syncStep cfg t (.settle false)
        = { t with inFlight := t.inFlight - 1,
                   emits := t.emits ++ [SyncEvt.bulkError],
                   paused := false } ∧
      (syncStep cfg t (.settle false)).finalizeCount = t.finalizeCount ∧
      (syncStep cfg t (.settle false)).outcome = t.outcome) ∧
    (t.finalizeCount = 1 → t.outcome = some cfg.refreshResult) ∧
    (∀ e, cfg.refreshResult = .error e → t.finalizeCount = 1 →
      t.outcome = some (.error e)) := by
  subst ht
  have inv : SyncInv cfg (runFrom cfg (syncInit cfg) es) :=
    runFrom_inv cfg hT (syncInit_inv cfg hT) hvalid
  set s := runFrom cfg (syncInit cfg) es with hs
  have houtcome : s.finalizeCount = 1 → s.outcome = some cfg.refreshResult := by
    intro h1
    rw [inv.outcome_fin, h1]
    rfl
  refine ⟨?_, houtcome, ?_⟩
  · intro hnc _hif
    have hlis : s.listeners = true := inv.listen_iff.2 (inv.open_zero hnc)
    have heq : syncStep cfg s (.settle false)
        = { s with inFlight := s.inFlight - 1,
                   emits := s.emits ++ [SyncEvt.bulkError],
                   paused := false } := by
      show onSettle cfg s false = _
      rw [onSettle_open cfg s false hlis hnc]
      rfl
    exact ⟨heq, by rw [heq], by rw [heq]⟩
  · intro e he h1
    rw [houtcome h1, he]

/-- Witness for C6: with a flush in flight and the cursor open, a bulk error
resumes the stream without settling the run; with a failing refresh, a
completed run's outcome is the refresh rejection. -/
theorem sync_bulk_error_nonfatal_witness :
    (syncStep cfgErr (runFrom cfgErr (syncInit cfgErr) [.data 0, .data 1])
        (.settle false)).paused = false ∧
    (runFrom cfgErr (syncInit cfgErr)
        [.data 0, .data 1, .settle false, .close]).outcome
      = some (.error ⟨500⟩) := by
  have h1 := sync_bulk_error_nonfatal cfgErr (by decide) [.data 0, .data 1]
    (by decide) (runFrom cfgErr (syncInit cfgErr) [.data 0, .data 1]) rfl
  have h2 := sync_bulk_error_nonfatal cfgErr (by decide)
    [.data 0, .data 1, .settle false, .close] (by decide)
    (runFrom cfgErr (syncInit cfgErr)
      [.data 0, .data 1, .settle false, .close]) rfl
  refine ⟨?_, h2.2.2 ⟨500⟩ rfl (by decide)⟩
  have heq := (h1.1 (by decide) (by decide)).1
  rw [heq]

/-- Claim C5: along any valid run with a configured filter, every document
in every flushed batch and in the pending buffer satisfies the filter (a
rejected record is never pushed); processing a rejected record only emits
the filtered notification and resumes; and in the post-save hook a record
that is newly created and immediately filtered emits the filtered
notifications only — in particular it never issues a remove. -/
theorem filtered_never_batched (cfg : SyncCfg) (hT : 0 < cfg.threshold)
    (es : List Ev) (hvalid : validFrom cfg (syncInit cfg) es = true)
    (t : SyncState) (ht : t = runFrom cfg (syncInit cfg) es) :
    (∀ f, cfg.filter = some f → ∀ b ∈ t.batches, ∀ d ∈ b, f d = true) ∧
    (∀ f, cfg.filter = some f → ∀ d ∈ t.bulker.buffer, f d = true) ∧
    (∀ d, passes cfg d = false →
      syncStep cfg t (.data d)
        = { t with emits := t.emits ++ [SyncEvt.bulkFiltered d],
                   paused := false }) ∧
    (∀ u scriptMode ir ur re,
      postSave (some (preSave true u)) (some false) scriptMode ir ur re
        = [.emitOnDoc .filteredEvt, .emitOnModel .filteredEvt]) := by
  subst ht
  have inv : SyncInv cfg (runFrom cfg (syncInit cfg) es) :=
    runFrom_inv cfg hT (syncInit_inv cfg hT) hvalid
  set s := runFrom cfg (syncInit cfg) es with hs
  refine ⟨?_, ?_, ?_, ?_⟩
  · intro f hf b hb d hd
    have := inv.batches_pass b hb d hd
    rwa [passes, hf] at this
  · intro f hf d hd
    have := inv.buffer_pass d hd
    rwa [passes, hf] at this
  · intro d hp
    show onData cfg s d = _
    exact onData_filtered cfg s d hp
  · intro u scriptMode ir ur re
    unfold postSave preSave
    rfl

/-- Witness for C5: in a run where document 1 is rejected by the even-id
filter, both flushed batches and buffer hold only accepted documents, and
the new-and-filtered post-save case issues no remove. -/
theorem filtered_never_batched_witness :
    ((fun d => d % 2 == 0) 0 = true) ∧
    syncStep cfgEven
        (runFrom cfgEven (syncInit cfgEven) [.data 0, .data 1, .data 2])
        (.data 3)
      = { runFrom cfgEven (syncInit cfgEven) [.data 0, .data 1, .data 2] with
          emits := (runFrom cfgEven (syncInit cfgEven)
              [.data 0, .data 1, .data 2]).emits
            ++ [SyncEvt.bulkFiltered 3],
          paused := false } ∧
    postSave (some (preSave true ["a"])) (some false) true (.ok 1) (.ok 2)
        none
      = [.emitOnDoc .filteredEvt, .emitOnModel .filteredEvt] := by
  have h := filtered_never_batched cfgEven (by decide)
    [.data 0, .data 1, .data 2] (by decide)
    (runFrom cfgEven (syncInit cfgEven) [.data 0, .data 1, .data 2]) rfl
  exact ⟨h.1 _ rfl [0, 2] (by decide) 0 (by decide),
    h.2.2.1 3 (by decide),
    h.2.2.2 ["a"] true (.ok 1) (.ok 2) none⟩

end Mexp

